import Mathlib

/-!
Verification of the resilient concurrent validation pipeline of simple_semgrepAI.

This file gives a shallow embedding, in Lean 4, of the pipeline components of the
repository — the validation cache (src/semgrepai/cache.py), the async progress
tracker (src/semgrepai/async_utils/progress.py), the async rate limiter
(src/semgrepai/async_utils/rate_limiter.py) and the validator orchestrator
(src/semgrepai/validator.py) — and proves or refutes the testable properties of
the specification against that embedding.

Modelling conventions:
* SQLite timestamps are modelled as integers (seconds); the textual
  CURRENT_TIMESTAMP / isoformat comparison of the source is abstracted to
  integer comparison.
* SQLite rows of the validation_cache table are a Lean list in rowid order;
  INSERT OR REPLACE deletes the conflicting row and appends the fresh row, with
  unnamed columns taking their declared DEFAULT.
* `int(current_size * 0.2)` (a float product truncated to int) equals
  `current_size / 5` in natural-number division for every realistic table size,
  and is modelled as such.
* Python exceptions are modelled with `Except`; `None` returns as `Option`.
* Delays are modelled as rationals; for the powers of two and the default
  configuration involved, Python float arithmetic on them is exact.
-/

namespace SemgrepAI

/-! ## Fingerprints — ValidationCache._compute_hash (src/semgrepai/cache.py lines 57-72)

`_compute_hash` accepts either a pre-computed hash string (returned unchanged)
or a finding dictionary.  The dictionary is modelled as an association list of
string fields in arbitrary order; `finding.get(key)` returns the value of the
first binding of `key`, or `None`.  The four fingerprinted fields of this
repository are strings, so field values are modelled as `Option String`
(`none` serialising to the JSON literal null). -/

/-- The argument accepted by `_compute_hash`, `get` and `put`: either a
pre-computed hash string or a finding dictionary (modelled as an association
list, in whatever field order the caller produced). -/
inductive FindingArg where
  | str (s : String)
  | dict (fields : List (String × String))
  deriving Repr, DecidableEq

/-- Embedding of `dict.get(key)`: the value of the first binding of `key`, if any. -/
def dictGet (fields : List (String × String)) (key : String) : Option String :=
  (fields.find? (fun kv => kv.1 = key)).map (fun kv => kv.2)

/-- JSON string escaping of `json.dumps` restricted to the characters that need
it here (backslash and double quote); other characters pass through. -/
def jsonEscape (s : String) : String :=
  String.mk (s.data.foldr (fun c acc => if c = '"' ∨ c = '\\' then '\\' :: c :: acc else c :: acc) [])

/-- Serialisation of one field value: a JSON string, or the literal null for a
missing field (`finding.get` returning `None`). -/
def jsonOfOpt : Option String → String
  | none => "null"
  | some s => "\"" ++ jsonEscape s ++ "\""

/-- Embedding of `json.dumps(hash_data, sort_keys=True)` for the dictionary built by
`_compute_hash`: the four fingerprinted fields, emitted in sorted key order
(code, message, rule_id, severity) with the default ", " and ": " separators. -/
def dumpsHashData (fields : List (String × String)) : String :=
  "\x7b\"code\": " ++ jsonOfOpt (dictGet fields "code") ++
  ", \"message\": " ++ jsonOfOpt (dictGet fields "message") ++
  ", \"rule_id\": " ++ jsonOfOpt (dictGet fields "rule_id") ++
  ", \"severity\": " ++ jsonOfOpt (dictGet fields "severity") ++ "\x7d"

/-- Stand-in for `hashlib.sha256(...).hexdigest()`: a deterministic digest of
the serialised string, rendered in hexadecimal.  Only determinism — equal
inputs give equal digests — matters to the fingerprint claims, and that holds
for any function; the concrete fold keeps the definition executable. -/
def sha256hex (s : String) : String :=
  String.mk (Nat.toDigits 16 (s.data.foldl (fun acc c => (acc * 131 + c.toNat) % 2 ^ 256) 0))

/-- Embedding of `ValidationCache._compute_hash`: pass a string argument through unchanged;
hash the four stable fields of a dictionary argument. -/
def computeHash : FindingArg → String
  | .str s => s
  | .dict fields => sha256hex (dumpsHashData fields)

/-! ## Cache entries and state — src/semgrepai/cache.py -/

/-- One row of the validation_cache table (`_init_db`, lines 32-45).
`access_count INTEGER DEFAULT 1`. -/
structure CacheEntry where
  hash : String
  findingData : String
  validationResult : String
  createdAt : Int
  accessedAt : Int
  accessCount : Nat
  deriving Repr, DecidableEq

/-- In-memory state of a `ValidationCache` object plus its SQLite table.
`hits`/`misses` are the process-local counters; `putCount` is `_put_count`. -/
structure ValidationCache where
  entries : List CacheEntry
  hits : Nat
  misses : Nat
  maxEntries : Nat
  autoCleanupInterval : Nat
  putCount : Nat
  deriving Repr, DecidableEq

/-- A fresh cache over an empty table, as built by `__init__` (defaults
`max_entries=10000`, `auto_cleanup_interval=100`). -/
def mkCache (maxEntries autoCleanupInterval : Nat) : ValidationCache :=
  { entries := [], hits := 0, misses := 0, maxEntries := maxEntries,
    autoCleanupInterval := autoCleanupInterval, putCount := 0 }

/-- The row inserted by `put` (lines 113-121): created_at = accessed_at = now,
access_count left to its column DEFAULT of 1. -/
def freshEntry (h findingData validationResult : String) (now : Int) : CacheEntry :=
  { hash := h, findingData := findingData, validationResult := validationResult,
    createdAt := now, accessedAt := now, accessCount := 1 }

/-- Embedding of `INSERT OR REPLACE` keyed on the hash PRIMARY KEY: the conflicting row (if
any) is deleted and the fresh row inserted. -/
def insertOrReplace (entries : List CacheEntry) (e : CacheEntry) : List CacheEntry :=
  entries.filter (fun x => x.hash ≠ e.hash) ++ [e]

/-- Embedding of `ValidationCache.get` (lines 74-106): on a hit return the stored result and
bump accessed_at/access_count and the hit counter; on a miss bump the miss
counter and return none. -/
def ValidationCache.get (st : ValidationCache) (finding : FindingArg) (now : Int) :
    Option String × ValidationCache :=
  let findingHash := computeHash finding
  match st.entries.find? (fun e => e.hash = findingHash) with
  | some e =>
      (some e.validationResult,
        { st with
            entries := st.entries.map (fun x =>
              if x.hash = findingHash then
                { x with accessedAt := now, accessCount := x.accessCount + 1 }
              else x),
            hits := st.hits + 1 })
  | none => (none, { st with misses := st.misses + 1 })

/-- The LRU ordering of `_auto_cleanup` — ORDER BY accessed_at ASC,
access_count ASC. -/
def lruLe (a b : CacheEntry) : Bool :=
  decide (a.accessedAt < b.accessedAt ∨
    (a.accessedAt = b.accessedAt ∧ a.accessCount ≤ b.accessCount))

/-- Embedding of `ValidationCache._auto_cleanup` (lines 130-157): when the table holds more
than max_entries rows, delete the `int(current_size * 0.2)` least recently
accessed rows (ties broken by access_count ascending) in one statement. -/
def ValidationCache.autoCleanup (maxEntries : Nat) (entries : List CacheEntry) : List CacheEntry :=
  let currentSize := entries.length
  if currentSize > maxEntries then
    let entriesToRemove := currentSize / 5
    let victims := ((entries.mergeSort lruLe).take entriesToRemove).map (fun e => e.hash)
    entries.filter (fun e => !(decide (e.hash ∈ victims)))
  else entries

/-- Embedding of `ValidationCache.put` (lines 108-128): INSERT OR REPLACE the row, then
increment `_put_count`, and when it reaches `auto_cleanup_interval` run
`_auto_cleanup` and reset the counter. -/
def ValidationCache.put (st : ValidationCache) (h findingData validationResult : String)
    (now : Int) : ValidationCache :=
  let entries1 := insertOrReplace st.entries (freshEntry h findingData validationResult now)
  let putCount1 := st.putCount + 1
  if putCount1 ≥ st.autoCleanupInterval then
    { st with entries := ValidationCache.autoCleanup st.maxEntries entries1, putCount := 0 }
  else
    { st with entries := entries1, putCount := putCount1 }

/-- Embedding of `datetime.now() - timedelta(days=max_age_days)`, in seconds. -/
def cutoffTime (now : Int) (maxAgeDays : Nat) : Int := now - maxAgeDays * 86400

/-- Rows matched by the DELETE of `cleanup` (lines 164-167): created_at older
than the cutoff AND access_count at most min_access_count. -/
def staleEntry (cutoff : Int) (minAccessCount : Nat) (e : CacheEntry) : Bool :=
  decide (e.createdAt < cutoff) && decide (e.accessCount ≤ minAccessCount)

/-- Result of one `cleanup` call: the surviving cache, the row count the
function logs (`cursor.rowcount`), and the value the Python function returns —
which is `None`: `cleanup` has no return statement. -/
structure CleanupOutcome where
  cache : ValidationCache
  loggedRemoved : Nat
  ret : Option Nat
  deriving Repr, DecidableEq

/-- Embedding of `ValidationCache.cleanup` (lines 159-171). -/
def ValidationCache.cleanup (st : ValidationCache) (now : Int)
    (maxAgeDays minAccessCount : Nat) : CleanupOutcome :=
  let cutoff := cutoffTime now maxAgeDays
  { cache := { st with entries := st.entries.filter (fun e => !staleEntry cutoff minAccessCount e) },
    loggedRemoved := st.entries.countP (staleEntry cutoff minAccessCount),
    ret := none }

/-! ## Progress tracker — src/semgrepai/async_utils/progress.py

The tracker's mutable fields are guarded by one asyncio lock and every mutating
method is a single critical section followed by callback notification;
callbacks never mutate tracker state (`_notify_callbacks` swallows their
errors), so the state evolution is the sequential application of the mutating
methods, modelled below as pure state transformers. -/

/-- Embedding of `ProgressStatus` (lines 10-16). -/
inductive ProgressStatus where
  | pending
  | running
  | completed
  | failed
  | cancelled
  deriving Repr, DecidableEq

/-- Embedding of `ProgressUpdate.is_complete` (lines 51-58): the three terminal statuses. -/
def ProgressStatus.isComplete : ProgressStatus → Bool
  | .completed => true
  | .failed => true
  | .cancelled => true
  | _ => false

/-- Mutable state of an `AsyncProgressTracker` (lines 102-118).  Python ints
are unbounded and `update` accepts any of them, so `total`/`processed` are
integers; the current-item dictionary is opaque here; the metrics dictionary is
an association list in insertion order. -/
structure AsyncProgressTracker where
  total : Int
  processed : Int
  status : ProgressStatus
  currentItem : Option String
  metrics : List (String × Int)
  startedAt : Option Int
  errorMessage : Option String
  deriving Repr, DecidableEq

/-- Embedding of `AsyncProgressTracker.__init__`: pending status, zero processed, the six
pre-seeded metric counters. -/
def initTracker (total : Int) : AsyncProgressTracker :=
  { total := total, processed := 0, status := .pending, currentItem := none,
    metrics := [("cache_hits", 0), ("cache_misses", 0), ("true_positives", 0),
                ("false_positives", 0), ("needs_review", 0), ("errors", 0)],
    startedAt := none, errorMessage := none }

/-- Python `d[k] = v` on a string-keyed dictionary: overwrite the existing
binding in place, else append. -/
def dictSet (m : List (String × Int)) (k : String) (v : Int) : List (String × Int) :=
  if m.any (fun kv => kv.1 = k) then
    m.map (fun kv => if kv.1 = k then (k, v) else kv)
  else m ++ [(k, v)]

/-- Python `d.update(u)`: set each binding of `u` in order. -/
def dictUpdate (m u : List (String × Int)) : List (String × Int) :=
  u.foldl (fun acc kv => dictSet acc kv.1 kv.2) m

/-- Python `d.get(k)` for the metrics dictionary. -/
def dictGetInt (m : List (String × Int)) (k : String) : Option Int :=
  (m.find? (fun kv => kv.1 = k)).map (fun kv => kv.2)

/-- Embedding of `start` (lines 152-157): set status running and record the start time —
unconditionally, whatever the current status. -/
def AsyncProgressTracker.start (st : AsyncProgressTracker) (now : Int) : AsyncProgressTracker :=
  { st with status := .running, startedAt := some now }

/-- Embedding of `update` (lines 159-187): absolute `processed` wins over the increment;
the current item and metrics merge only when supplied.  No clamping and no
monotonicity check is performed. -/
def AsyncProgressTracker.update (st : AsyncProgressTracker) (processed : Option Int)
    (increment : Int) (currentItem : Option String)
    (metricsUpdate : Option (List (String × Int))) : AsyncProgressTracker :=
  let st1 :=
    match processed with
    | some p => { st with processed := p }
    | none => { st with processed := st.processed + increment }
  let st2 :=
    match currentItem with
    | some c => { st1 with currentItem := some c }
    | none => st1
  match metricsUpdate with
  | some u => { st2 with metrics := dictUpdate st2.metrics u }
  | none => st2

/-- Embedding of `increment_metric` (lines 189-196). -/
def AsyncProgressTracker.incrementMetric (st : AsyncProgressTracker) (name : String)
    (amount : Int) : AsyncProgressTracker :=
  { st with metrics :=
      match dictGetInt st.metrics name with
      | some v => dictSet st.metrics name (v + amount)
      | none => dictSet st.metrics name amount }

/-- Embedding of `complete` (lines 198-204): completed status, processed snapped to total,
current item cleared. -/
def AsyncProgressTracker.complete (st : AsyncProgressTracker) : AsyncProgressTracker :=
  { st with status := .completed, processed := st.total, currentItem := none }

/-- Embedding of `fail` (lines 206-212). -/
def AsyncProgressTracker.fail (st : AsyncProgressTracker) (msg : String) : AsyncProgressTracker :=
  { st with status := .failed, errorMessage := some msg, currentItem := none }

/-- Embedding of `cancel` (lines 214-219). -/
def AsyncProgressTracker.cancel (st : AsyncProgressTracker) : AsyncProgressTracker :=
  { st with status := .cancelled, currentItem := none }

/-- Embedding of `ProgressUpdate.percentage` (lines 44-49): `processed / total * 100`, and
0 when total is 0. -/
def percentage (total processed : Int) : ℚ :=
  if total = 0 then 0 else (processed : ℚ) / (total : ℚ) * 100

/-- One mutating call on the tracker. -/
inductive TrackerOp where
  | start (now : Int)
  | update (processed : Option Int) (increment : Int) (currentItem : Option String)
      (metricsUpdate : Option (List (String × Int)))
  | incrementMetric (name : String) (amount : Int)
  | complete
  | fail (msg : String)
  | cancel
  deriving Repr, DecidableEq

/-- Apply one mutating call. -/
def applyOp (st : AsyncProgressTracker) : TrackerOp → AsyncProgressTracker
  | .start now => st.start now
  | .update p inc c m => st.update p inc c m
  | .incrementMetric n a => st.incrementMetric n a
  | .complete => st.complete
  | .fail m => st.fail m
  | .cancel => st.cancel

/-- Apply a sequence of mutating calls in order. -/
def runOps (st : AsyncProgressTracker) (ops : List TrackerOp) : AsyncProgressTracker :=
  ops.foldl applyOp st

/-! ## Rate limiter — src/semgrepai/async_utils/rate_limiter.py -/

/-- Embedding of `RateLimitConfig` (lines 34-54), with its defaults. -/
structure RateLimitConfig where
  maxConcurrent : Nat := 4
  requestsPerMinute : Nat := 60
  maxRetries : Nat := 3
  baseDelay : ℚ := 1
  maxDelay : ℚ := 60
  jitter : Bool := true
  deriving Repr, DecidableEq

/-- Embedding of `_calculate_backoff` (lines 105-113): `min(base_delay * 2 ** attempt,
max_delay)`, plus — when jitter is enabled — `random.uniform(0, delay * 0.1)`,
modelled as an externally supplied draw `jitterDraw`. -/
def calculateBackoff (cfg : RateLimitConfig) (jitterDraw : ℚ) (attempt : Nat) : ℚ :=
  let delay := min (cfg.baseDelay * 2 ^ attempt) cfg.maxDelay
  if cfg.jitter then delay + jitterDraw else delay

/-- Outcome of `execute_with_retry`: the value, or the `MaxRetriesExceeded`
error raised `from last_exception` after the loop. -/
inductive RetryOutcome (ε α : Type) where
  | ok (value : α)
  | maxRetriesExceeded (lastError : Option ε)
  deriving Repr, DecidableEq

/-- Observable trace of one `execute_with_retry` call: its outcome, how many
times the operation was attempted, and the backoff sleeps performed between
consecutive attempts, in order. -/
structure RetryTrace (ε α : Type) where
  outcome : RetryOutcome ε α
  attemptsMade : Nat
  sleeps : List ℚ
  deriving Repr, DecidableEq

/-- The `for attempt in range(max_retries)` loop of `execute_with_retry`
(lines 133-156) over the list of remaining attempt indices.  Each attempt runs
the operation; on success the loop returns; on a retryable failure the last
exception is recorded and, unless this was the final attempt
(`attempt < max_retries - 1` fails), the loop sleeps `_calculate_backoff
(attempt)` before continuing.  The operation is modelled as a function of the
attempt index so that re-running it is meaningful; the random jitter draws are
an oracle indexed the same way. -/
def retryGo (cfg : RateLimitConfig) (jitterDraws : Nat → ℚ) (op : Nat → Except ε α) :
    List Nat → Option ε → RetryTrace ε α
  | [], lastErr => { outcome := .maxRetriesExceeded lastErr, attemptsMade := 0, sleeps := [] }
  | attempt :: rest, _ =>
    match op attempt with
    | .ok v => { outcome := .ok v, attemptsMade := 1, sleeps := [] }
    | .error e =>
      let tail := retryGo cfg jitterDraws op rest (some e)
      if attempt < cfg.maxRetries - 1 then
        { outcome := tail.outcome, attemptsMade := tail.attemptsMade + 1,
          sleeps := calculateBackoff cfg (jitterDraws attempt) attempt :: tail.sleeps }
      else
        { outcome := tail.outcome, attemptsMade := tail.attemptsMade + 1,
          sleeps := tail.sleeps }

/-- Embedding of `execute_with_retry` (lines 115-156): run the loop over attempt indices
`0, …, max_retries - 1` with no exception recorded yet. -/
def executeWithRetry (cfg : RateLimitConfig) (jitterDraws : Nat → ℚ)
    (op : Nat → Except ε α) : RetryTrace ε α :=
  retryGo cfg jitterDraws op (List.range cfg.maxRetries) none

/-! ### Concurrency state machine — `__aenter__`/`__aexit__` (lines 82-93)

`__aenter__` awaits the semaphore (initialised to max_concurrent), then awaits
a rate-limit token of the AsyncLimiter bucket (capacity requests_per_minute),
then bumps the request counter; `__aexit__` releases the semaphore.  The
interleaving of concurrent tasks is modelled as a labelled transition system
over the shared counters; "holding a concurrency slot" is the interval between
a completed semaphore acquire and the matching release. -/

/-- Shared state of one `AsyncRateLimiter`: the semaphore value, the number of
tasks currently holding a concurrency slot, the rate-limit token bucket level,
and `_request_count`. -/
structure LimiterProcState where
  semValue : Nat
  holders : Nat
  bucketTokens : Nat
  requestCount : Nat
  deriving Repr, DecidableEq

/-- Initial state built by `__init__` (lines 72-80): a full semaphore, a full
token bucket, no holders, zero requests. -/
def initLimiterState (cfg : RateLimitConfig) : LimiterProcState :=
  { semValue := cfg.maxConcurrent, holders := 0,
    bucketTokens := cfg.requestsPerMinute, requestCount := 0 }

/-- One interleaved step of the tasks sharing the limiter.  A semaphore
acquire completes only when a slot is free; a token acquire (with the request
count bump under `_lock`) completes only when the bucket is non-empty; the
bucket replenishes over time up to its capacity; a release comes only from a
task that holds a slot (`__aexit__` runs once per completed `__aenter__`). -/
inductive LimiterStep (cfg : RateLimitConfig) : LimiterProcState → LimiterProcState → Prop where
  | acquireSlot (s : LimiterProcState) (h : 0 < s.semValue) :
      LimiterStep cfg s { s with semValue := s.semValue - 1, holders := s.holders + 1 }
  | acquireToken (s : LimiterProcState) (h : 0 < s.bucketTokens) :
      LimiterStep cfg s { s with bucketTokens := s.bucketTokens - 1,
                                 requestCount := s.requestCount + 1 }
  | replenishToken (s : LimiterProcState) (h : s.bucketTokens < cfg.requestsPerMinute) :
      LimiterStep cfg s { s with bucketTokens := s.bucketTokens + 1 }
  | releaseSlot (s : LimiterProcState) (h : 0 < s.holders) :
      LimiterStep cfg s { s with semValue := s.semValue + 1, holders := s.holders - 1 }

/-- States reachable by any interleaving of limiter-guarded tasks. -/
def LimiterReachable (cfg : RateLimitConfig) (s : LimiterProcState) : Prop :=
  Relation.ReflTransGen (LimiterStep cfg) (initLimiterState cfg) s

/-- The default `RateLimitConfig()`. -/
def defaultRateLimitConfig : RateLimitConfig := {}

/-- The limiter state after one completed semaphore acquire under the default
configuration. -/
def oneHolderState : LimiterProcState :=
  { semValue := 3, holders := 1, bucketTokens := 60, requestCount := 0 }

/-! ## Validator orchestrator — src/semgrepai/validator.py

`AIValidator.validate_findings` resets the cache hit/miss counters (lines
262-263), splits the findings into batches of `config.llm.batch_size`
(default 10), submits one `_process_batch` future per batch to a thread pool,
and extends the result list in future-completion order (`as_completed`, lines
307-319).  `_process_batch` (lines 336-355) maps `_validate_single_finding`
over its batch, appending one output per input.  `_validate_single_finding`
(lines 357-446) prepares the finding context, invokes the classifier chain
exactly once (line 389) — no cache lookup precedes the call and no cache write
follows it; `self.cache` is never touched between the counter reset and the
statistics display — and on any exception attaches an error-verdict validation
embedding the message (lines 418-446) instead of raising.

The classifier chain plus `_parse_validation_result` is modelled as a function
`classify` producing a parsed validation or the message of the exception the
invocation raised (`_parse_validation_result` itself catches all its own
errors, so only the invocation can raise).  Future-completion order is an
arbitrary permutation `order` of the batch indices. -/

/-- The parsed validation attached to a finding; the constant "Unknown"
sub-dictionaries of the source are elided. -/
structure AIValidation where
  isValid : Option Bool
  confidence : ℚ
  verdict : String
  riskScore : Nat
  justification : String
  deriving Repr, DecidableEq

/-- A semgrep finding as consumed by the validator, restricted to the fields
the pipeline reads; `aiValidation` is the key the validator adds. -/
structure Finding where
  ruleId : String
  severity : String
  message : String
  path : String
  line : Int
  code : Option String
  aiValidation : Option AIValidation
  deriving Repr, DecidableEq

/-- The error-verdict validation synthesised by the except branch of
`_validate_single_finding` (lines 420-445). -/
def errorValidation (msg : String) : AIValidation :=
  { isValid := none, confidence := 0, verdict := "Error", riskScore := 0,
    justification := "Error during validation: " ++ msg }

/-- Embedding of `_validate_single_finding` (lines 357-446), threading the count of
classifier invocations: the chain is invoked exactly once per call (line 389),
success attaching the parsed validation and failure attaching the error
verdict.  The input finding is returned augmented, never dropped. -/
def validateSingleFinding (classify : Finding → Except String AIValidation)
    (f : Finding) (calls : Nat) : Finding × Nat :=
  match classify f with
  | .ok v => ({ f with aiValidation := some v }, calls + 1)
  | .error e => ({ f with aiValidation := some (errorValidation e) }, calls + 1)

/-- Embedding of `_process_batch` (lines 336-355): validate each finding of the batch in
order, appending exactly one result per finding.  (`_validate_single_finding`
handles its own exceptions, so the per-finding except branch that would append
the raw finding is unreachable.) -/
def processBatch (classify : Finding → Except String AIValidation) :
    List Finding → Nat → List Finding × Nat
  | [], calls => ([], calls)
  | f :: rest, calls =>
    let (r, calls1) := validateSingleFinding classify f calls
    let (rs, calls2) := processBatch classify rest calls1
    (r :: rs, calls2)

/-- Fuel-indexed slicing loop; the fuel (instantiated to the list length,
which bounds the number of non-empty slices) only serves structural
termination. -/
def chunksOfFuel : Nat → Nat → List α → List (List α)
  | _, _, [] => []
  | 0, _, _ :: _ => []
  | fuel + 1, n, x :: xs =>
    if n = 0 then []
    else List.take n (x :: xs) :: chunksOfFuel fuel n (List.drop n (x :: xs))

/-- Embedding of `findings[i : i + batch_size]` for `i in range(0, len(findings),
batch_size)` (line 301): the batches, in submission order.  A zero batch size
yields no batches (Python would raise on a zero slice step). -/
def chunksOf (n : Nat) (l : List α) : List (List α) :=
  chunksOfFuel l.length n l

/-- Observable outcome of one `validate_findings` call: the validated list,
the cache object (counters reset at lines 262-263 and then untouched), and the
total number of classifier invocations performed. -/
structure ValidationRun where
  results : List Finding
  cache : ValidationCache
  classifierCalls : Nat
  deriving Repr, DecidableEq

/-- Collect one completed batch future (lines 307-319): extend the result
list with the batch results, carrying the classifier invocation count. -/
def batchStep (classify : Finding → Except String AIValidation)
    (batches : List (List Finding)) (acc : List Finding × Nat) (i : Nat) :
    List Finding × Nat :=
  let (rs, calls) := processBatch classify (batches.getD i []) acc.2
  (acc.1 ++ rs, calls)

/-- Embedding of `_display_validation_statistics` (lines 576-691) restricted
to its one fallible step: the "Average Time per Finding" row (line 587)
computes `processing_time/total_findings` with no zero guard, so a zero
finding count raises ZeroDivisionError out of `validate_findings`; every other
division in the function is guarded, and the rendering has no effect on the
returned data. -/
def displayValidationStatistics (totalFindings : Nat) : Except String Unit :=
  if totalFindings = 0 then .error "ZeroDivisionError: float division by zero"
  else .ok ()

/-- Embedding of `AIValidator.validate_findings` (lines 256-334) with the future-completion
order of the batches made explicit: reset the cache counters, process every
batch, concatenate the batch results in completion order, then display the
validation statistics (line 328, unconditional) — which raises on an empty
findings list — before returning the validated list. -/
def validateFindings (classify : Finding → Except String AIValidation) (batchSize : Nat)
    (order : List Nat) (findings : List Finding) (cache : ValidationCache) :
    Except String ValidationRun :=
  let cacheReset := { cache with hits := 0, misses := 0 }
  let batches := chunksOf batchSize findings
  let folded := order.foldl (batchStep classify batches) ([], 0)
  match displayValidationStatistics findings.length with
  | .error e => .error e
  | .ok _ => .ok { results := folded.1, cache := cacheReset, classifierCalls := folded.2 }

/-- A sample parsed classification, used to instantiate the pipeline at
concrete inputs. -/
def sampleValidation : AIValidation :=
  { isValid := some true, confidence := 9 / 10, verdict := "True Positive",
    riskScore := 8, justification := "j" }

/-- A sample finding, used to instantiate the pipeline at concrete inputs. -/
def sampleFinding : Finding :=
  { ruleId := "r", severity := "HIGH", message := "m", path := "p.py",
    line := 1, code := some "c", aiValidation := none }

/-- A finding on which the sample classifier fails with a retryable-style
error, used to instantiate the pipeline at concrete inputs. -/
def badFinding : Finding :=
  { ruleId := "bad", severity := "LOW", message := "m2", path := "q.py",
    line := 2, code := some "c2", aiValidation := none }

/-- One `validate_findings` call over a batch holding the same finding twice,
with a classifier that succeeds instantly — the concrete scenario of the
duplicate-submission cache claim. -/
def duplicateFindingRun : Except String ValidationRun :=
  validateFindings (fun _ => .ok sampleValidation) 10 [0]
    [sampleFinding, sampleFinding] (mkCache 10000 100)

/-- A numbered cache entry for concrete eviction scenarios: entry `i` was last
accessed at time `i`. -/
def sampleEntry (i : Nat) : CacheEntry :=
  { hash := toString i, findingData := "f", validationResult := "v",
    createdAt := 0, accessedAt := (i : Int), accessCount := 1 }

/-- A small over-full cache one put away from its auto-cleanup trigger. -/
def evictionSampleCache : ValidationCache :=
  { entries := [sampleEntry 0, sampleEntry 1, sampleEntry 2, sampleEntry 3,
                sampleEntry 4, sampleEntry 5],
    hits := 0, misses := 0, maxEntries := 4, autoCleanupInterval := 2, putCount := 1 }

/-- The conditions under which a tracker mutation cannot decrease the
processed count: an absolute update must not pass a value below the current
count, an incremental update must not pass a negative increment, and
`complete` (which snaps processed to total) must not run while processed
already exceeds total.  The source enforces none of these. -/
def monotoneCall (st : AsyncProgressTracker) : TrackerOp → Prop
  | .update (some p) _ _ _ => st.processed ≤ p
  | .update none inc _ _ => 0 ≤ inc
  | .complete => st.processed ≤ st.total
  | _ => True

/-! ## Theorems -/

/-- Splitting a list by a Boolean test: kept and removed lengths add up. -/
theorem length_filter_not_add_countP (p : α → Bool) (l : List α) :
    (l.filter (fun a => !p a)).length + l.countP p = l.length := by
  induction l with
  | nil => simp
  | cons x xs ih =>
    by_cases hx : p x = true <;> simp [List.filter_cons, List.countP_cons, hx] <;> omega

/-- C10: for all findings with identical rule id, severity, message and code
fields — as read by `finding.get`, hence regardless of the ordering of the
fields in the input representation — `_compute_hash` produces the same
fingerprint: the serialisation before hashing is a function of those four
field values only, with a fixed sorted key order. -/
theorem fingerprint_order_independent (f1 f2 : List (String × String))
    (hrule : dictGet f1 "rule_id" = dictGet f2 "rule_id")
    (hsev : dictGet f1 "severity" = dictGet f2 "severity")
    (hmsg : dictGet f1 "message" = dictGet f2 "message")
    (hcode : dictGet f1 "code" = dictGet f2 "code") :
    computeHash (.dict f1) = computeHash (.dict f2) := by
  simp only [computeHash, dumpsHashData, hrule, hsev, hmsg, hcode]

/-- Witness for C10: two concrete findings with the same four stable fields
listed in different orders (and different extra fields) share a fingerprint. -/
theorem fingerprint_order_independent_witness :
    dictGet [("rule_id", "sql-injection"), ("severity", "HIGH"), ("message", "tainted"),
        ("code", "q = a + b"), ("path", "app.py")] "rule_id" =
      dictGet [("code", "q = a + b"), ("message", "tainted"), ("severity", "HIGH"),
        ("rule_id", "sql-injection"), ("line", "7")] "rule_id" ∧
    computeHash (.dict [("rule_id", "sql-injection"), ("severity", "HIGH"),
        ("message", "tainted"), ("code", "q = a + b"), ("path", "app.py")]) =
      computeHash (.dict [("code", "q = a + b"), ("message", "tainted"),
        ("severity", "HIGH"), ("rule_id", "sql-injection"), ("line", "7")]) :=
  ⟨rfl, fingerprint_order_independent _ _ rfl rfl rfl rfl⟩

/-- C4 counterexample: a tracker that has completed — a terminal status — is
moved back to running by a subsequent `start()` call, which sets the status
unconditionally; so it is false that no subsequent mutation call moves the
status out of a terminal state. -/
theorem terminal_tracker_resurrected_by_start :
    (runOps (initTracker 3) [.start 0, .complete]).status.isComplete = true ∧
    (runOps (initTracker 3) [.start 0, .complete, .start 1]).status = .running ∧
    ProgressStatus.running.isComplete = false := by
  exact ⟨rfl, rfl, rfl⟩

/-- C4 amended: once the tracker is in a terminal status, every mutation call
other than `start` leaves it in a terminal status — `update` and
`increment_metric` never touch the status, and `complete`/`fail`/`cancel` only
move between terminal statuses; `start`, however, unconditionally resets the
status to running. -/
theorem terminal_stable_except_start (st : AsyncProgressTracker) (op : TrackerOp)
    (hterm : st.status.isComplete = true) (hop : ∀ now : Int, op ≠ .start now) :
    ((applyOp st op).status.isComplete = true) := by
  cases op with
  | start now => exact absurd rfl (hop now)
  | update p inc c m => cases p <;> cases c <;> cases m <;> exact hterm
  | incrementMetric n a => exact hterm
  | complete => rfl
  | fail m => rfl
  | cancel => rfl

/-- Witness for C4 (amended): a cancelled tracker stays terminal under a
subsequent `complete()` call. -/
theorem terminal_stable_except_start_witness :
    ((initTracker 3).cancel.status.isComplete = true) ∧
    ((applyOp (initTracker 3).cancel .complete).status.isComplete = true) :=
  ⟨rfl, terminal_stable_except_start (initTracker 3).cancel .complete rfl
    (fun _ h => nomatch h)⟩

/-- C8 counterexample: `update` performs no clamping — setting processed to 8
on a tracker of total 4 yields a reported percentage of 200, outside [0,100],
and a later absolute update to 1 strictly decreases the processed count. -/
theorem processed_decrease_and_percentage_overflow :
    (percentage (runOps (initTracker 4) [.start 0, .update (some 8) 0 none none]).total
        (runOps (initTracker 4) [.start 0, .update (some 8) 0 none none]).processed = 200) ∧
    ((applyOp (runOps (initTracker 4) [.start 0, .update (some 8) 0 none none])
          (.update (some 1) 0 none none)).processed <
      (runOps (initTracker 4) [.start 0, .update (some 8) 0 none none]).processed) := by
  constructor
  · show percentage 4 8 = 200
    norm_num [percentage]
  · show (1 : Int) < 8
    decide

/-- C8 amended: the reported percentage equals processed / total * 100 (0 when
total is 0) and lies in [0,100] whenever 0 ≤ processed ≤ total; and the
processed count never decreases across a mutation call provided the call
satisfies `monotoneCall` — the code itself enforces neither bound, as the
counterexample shows. -/
theorem progress_monotone_and_percentage_bounds :
    (∀ total processed : Int, 0 ≤ processed → processed ≤ total →
        0 ≤ percentage total processed ∧ percentage total processed ≤ 100) ∧
    (∀ (st : AsyncProgressTracker) (op : TrackerOp), monotoneCall st op →
        st.processed ≤ (applyOp st op).processed) ∧
    (∀ processed : Int, percentage 0 processed = 0) ∧
    (∀ total processed : Int, total ≠ 0 →
        percentage total processed = (processed : ℚ) / (total : ℚ) * 100) := by
  refine ⟨?_, ?_, ?_, ?_⟩
  · intro t p h0 hpt
    by_cases ht : t = 0
    · subst ht
      have hp : p = 0 := le_antisymm hpt h0
      subst hp
      constructor <;> norm_num [percentage]
    · have htQ : (0 : ℚ) < (t : ℚ) := by
        have : (0 : Int) < t := lt_of_le_of_ne (le_trans h0 hpt) (Ne.symm ht)
        exact_mod_cast this
      have hpQ : (0 : ℚ) ≤ (p : ℚ) := by exact_mod_cast h0
      have hptQ : (p : ℚ) ≤ (t : ℚ) := by exact_mod_cast hpt
      unfold percentage
      rw [if_neg ht]
      constructor
      · exact mul_nonneg (div_nonneg hpQ htQ.le) (by norm_num)
      · calc (p : ℚ) / (t : ℚ) * 100 ≤ 1 * 100 := by
              exact mul_le_mul_of_nonneg_right ((div_le_one htQ).mpr hptQ) (by norm_num)
          _ = 100 := by norm_num
  · intro st op hm
    cases op with
    | start now => exact le_refl _
    | update p inc c m =>
      cases p with
      | some v => cases c <;> cases m <;> exact hm
      | none =>
        cases c <;> cases m <;>
          · show st.processed ≤ st.processed + inc
            have : (0 : Int) ≤ inc := hm
            omega
    | incrementMetric n a => exact le_refl _
    | complete => exact hm
    | fail m => exact le_refl _
    | cancel => exact le_refl _
  · intro p
    simp [percentage]
  · intro t p ht
    simp [percentage, ht]

/-- Witness for C8 (amended): concrete instances of the percentage bounds and
of a monotone update. -/
theorem progress_monotone_and_percentage_bounds_witness :
    ((0 : Int) ≤ 3 ∧ (3 : Int) ≤ 4 ∧
      0 ≤ percentage 4 3 ∧ percentage 4 3 ≤ 100) ∧
    (monotoneCall (initTracker 4) (.update none 1 none none) ∧
      (initTracker 4).processed ≤
        (applyOp (initTracker 4) (.update none 1 none none)).processed) :=
  ⟨⟨by decide, by decide,
      (progress_monotone_and_percentage_bounds.1 4 3 (by decide) (by decide)).1,
      (progress_monotone_and_percentage_bounds.1 4 3 (by decide) (by decide)).2⟩,
    ⟨by norm_num [monotoneCall],
      progress_monotone_and_percentage_bounds.2.1 (initTracker 4)
        (.update none 1 none none) (by norm_num [monotoneCall])⟩⟩

/-- C6 counterexample: putting the same fingerprint twice leaves the stored
entry with access_count 1, not 2 — INSERT OR REPLACE deletes the old row and
the fresh row takes the column DEFAULT of 1, so a replacing put resets the
access count instead of incrementing it. -/
theorem replacing_put_resets_access_count :
    (((mkCache 10000 100).put "k" "d" "v1" 5).put "k" "d" "v2" 9).entries.map
        (fun e => (e.hash, e.accessCount)) = [("k", 1)] ∧
    (1 : Nat) ≠ 2 := by
  exact ⟨rfl, by decide⟩

/-- C6 amended: `put` inserts or replaces the entry for the fingerprint with
created-at = last-accessed = now and access-count = 1 in both cases — a
replacing put resets the access count to the column default rather than
incrementing it — leaving every other fingerprint's entry unchanged; the
non-cleanup-triggering `put` stores exactly this row set. -/
theorem put_row_semantics (st : ValidationCache) (h d r : String) (now : Int) :
    (insertOrReplace st.entries (freshEntry h d r now)).find?
        (fun x => x.hash = h) = some (freshEntry h d r now) ∧
    (∀ x ∈ insertOrReplace st.entries (freshEntry h d r now),
        x.hash = h → x = freshEntry h d r now) ∧
    (∀ x ∈ insertOrReplace st.entries (freshEntry h d r now),
        x.hash ≠ h → x ∈ st.entries) ∧
    (st.putCount + 1 < st.autoCleanupInterval →
      (st.put h d r now).entries = insertOrReplace st.entries (freshEntry h d r now) ∧
      (st.put h d r now).putCount = st.putCount + 1) := by
  refine ⟨?_, ?_, ?_, ?_⟩
  · unfold insertOrReplace
    rw [List.find?_append]
    have h1 : (st.entries.filter (fun x => x.hash ≠ (freshEntry h d r now).hash)).find?
        (fun x => x.hash = h) = none := by
      rw [List.find?_eq_none]
      intro x hx
      have := (List.mem_filter.mp hx).2
      simp only [freshEntry, decide_eq_true_eq] at this ⊢
      exact this
    rw [h1]
    simp [freshEntry]
  · intro x hx hxh
    rcases List.mem_append.mp hx with hmem | hmem
    · have := (List.mem_filter.mp hmem).2
      simp only [freshEntry, decide_eq_true_eq] at this
      exact absurd hxh this
    · simpa using hmem
  · intro x hx hxh
    rcases List.mem_append.mp hx with hmem | hmem
    · exact (List.mem_filter.mp hmem).1
    · have : x = freshEntry h d r now := by simpa using hmem
      exact absurd (by rw [this]; rfl) hxh
  · intro hlt
    unfold ValidationCache.put
    rw [if_neg (by omega)]
    exact ⟨rfl, rfl⟩

/-- Witness for C6 (amended): a concrete non-triggering put stores exactly the
insert-or-replace row set and bumps the put counter. -/
theorem put_row_semantics_witness :
    (mkCache 10 100).putCount + 1 < (mkCache 10 100).autoCleanupInterval ∧
    ((mkCache 10 100).put "k" "d" "v" 3).entries =
      insertOrReplace (mkCache 10 100).entries (freshEntry "k" "d" "v" 3) ∧
    ((mkCache 10 100).put "k" "d" "v" 3).putCount = 1 :=
  ⟨by decide,
    ((put_row_semantics (mkCache 10 100) "k" "d" "v" 3).2.2.2 (by decide)).1,
    ((put_row_semantics (mkCache 10 100) "k" "d" "v" 3).2.2.2 (by decide)).2⟩

/-- C7 counterexample: `cleanup` deletes the matching entry and logs a removal
count of 1, but its return value is `None` — the function has no return
statement — so it does not return the number of entries removed. -/
theorem cleanup_returns_none :
    (({ mkCache 10000 100 with
          entries := [{ hash := "a", findingData := "f", validationResult := "v",
                        createdAt := 0, accessedAt := 0, accessCount := 1 }] :
        ValidationCache }).cleanup (100 * 86400) 30 1).cache.entries = [] ∧
    (({ mkCache 10000 100 with
          entries := [{ hash := "a", findingData := "f", validationResult := "v",
                        createdAt := 0, accessedAt := 0, accessCount := 1 }] :
        ValidationCache }).cleanup (100 * 86400) 30 1).loggedRemoved = 1 ∧
    (({ mkCache 10000 100 with
          entries := [{ hash := "a", findingData := "f", validationResult := "v",
                        createdAt := 0, accessedAt := 0, accessCount := 1 }] :
        ValidationCache }).cleanup (100 * 86400) 30 1).ret = none ∧
    (none : Option Nat) ≠ some 1 := by
  refine ⟨rfl, rfl, rfl, ?_⟩
  intro hk
  exact Option.noConfusion hk

/-- C7 amended: `cleanup(maxAgeDays, minAccessCount)` deletes exactly the
entries that are both older than the cutoff (now minus maxAgeDays) and have
access-count ≤ minAccessCount; the number removed is logged (`rowcount`) but
the function returns nothing. -/
theorem cleanup_semantics (st : ValidationCache) (now : Int)
    (maxAgeDays minAccessCount : Nat) :
    (∀ e, e ∈ (st.cleanup now maxAgeDays minAccessCount).cache.entries ↔
        e ∈ st.entries ∧
        ¬(e.createdAt < cutoffTime now maxAgeDays ∧ e.accessCount ≤ minAccessCount)) ∧
    ((st.cleanup now maxAgeDays minAccessCount).cache.entries.Sublist st.entries) ∧
    ((st.cleanup now maxAgeDays minAccessCount).cache.entries.length +
        (st.cleanup now maxAgeDays minAccessCount).loggedRemoved = st.entries.length) ∧
    ((st.cleanup now maxAgeDays minAccessCount).ret = none) := by
  refine ⟨?_, ?_, ?_, rfl⟩
  · intro e
    show e ∈ st.entries.filter
        (fun x => !staleEntry (cutoffTime now maxAgeDays) minAccessCount x) ↔ _
    rw [List.mem_filter]
    simp only [staleEntry, Bool.not_eq_true', Bool.and_eq_false_iff,
      decide_eq_false_iff_not]
    exact and_congr_right (fun _ => not_and_or.symm)
  · exact List.filter_sublist _
  · exact length_filter_not_add_countP _ st.entries

/-- Witness for C7 (amended): an entry recent enough to survive does survive,
and the return value is `None`. -/
theorem cleanup_semantics_witness :
    (({ mkCache 10 100 with
          entries := [{ hash := "b", findingData := "f", validationResult := "v",
                        createdAt := 50 * 86400, accessedAt := 50 * 86400,
                        accessCount := 1 }] :
        ValidationCache }).cleanup (60 * 86400) 30 1).ret = none :=
  (cleanup_semantics _ (60 * 86400) 30 1).2.2.2

/-- Slot conservation: in every reachable limiter state, held slots and free
semaphore slots partition the max_concurrent capacity. -/
theorem limiter_slot_conservation (cfg : RateLimitConfig) (s : LimiterProcState)
    (h : LimiterReachable cfg s) : s.holders + s.semValue = cfg.maxConcurrent := by
  induction h with
  | refl => simp [initLimiterState]
  | tail hab hbc ih =>
    cases hbc with
    | acquireSlot hs => simp only; omega
    | acquireToken hs => simpa using ih
    | replenishToken hs => simpa using ih
    | releaseSlot hs => simp only; omega

/-- C9: in every state reachable by any interleaving of limiter-guarded
tasks, the number of operations concurrently holding a concurrency slot never
exceeds max_concurrent, regardless of rate-limit token availability (token
acquisition and replenishment never touch the semaphore). -/
theorem limiter_concurrency_bound (cfg : RateLimitConfig) (s : LimiterProcState)
    (h : LimiterReachable cfg s) : s.holders ≤ cfg.maxConcurrent := by
  have := limiter_slot_conservation cfg s h
  omega

/-- Witness for C9: with the default configuration, the state after one
completed semaphore acquire is reachable, and its holder count respects the
bound. -/
theorem limiter_concurrency_bound_witness :
    LimiterReachable defaultRateLimitConfig oneHolderState ∧
    oneHolderState.holders ≤ defaultRateLimitConfig.maxConcurrent :=
  ⟨Relation.ReflTransGen.single
      (LimiterStep.acquireSlot (initLimiterState defaultRateLimitConfig) (by decide)),
    limiter_concurrency_bound defaultRateLimitConfig oneHolderState
      (Relation.ReflTransGen.single
        (LimiterStep.acquireSlot (initLimiterState defaultRateLimitConfig) (by decide)))⟩

/-- C1: evaluating `validate_findings` at a batch holding the same finding
twice: the classifier chain is invoked twice — once per occurrence — and the
cache hit counter ends at 0, because `_validate_single_finding` never consults
`cache.get` before invoking the chain and never calls `cache.put` after it.
The claim (classifier invoked once, cache-hit counter 1) describes the clear
intent of the code — the validator constructs the ValidationCache, resets its
hit/miss counters for the batch and then renders "Cache Hits" statistics from
them — but the validation path never touches the cache, so those statistics
are always zero. -/
theorem classifier_invoked_per_occurrence_no_cache_hit :
    duplicateFindingRun.map (fun run => run.classifierCalls) = .ok 2 ∧
    duplicateFindingRun.map (fun run => run.cache.hits) = .ok 0 ∧
    duplicateFindingRun.map (fun run => run.results.length) = .ok 2 := by
  exact ⟨rfl, rfl, rfl⟩

/-- Unrolling the retry loop over the attempt indices `a, …, a+n-1` when the
operation fails on every attempt: all `n` attempts are made, the recorded last
exception is that of the final attempt, and a backoff sleep is performed after
every attempt except the last one overall. -/
theorem retryGo_allFail (cfg : RateLimitConfig) (jd : Nat → ℚ) (op : Nat → Except ε α)
    (errs : Nat → ε) (hfail : ∀ n, op n = .error (errs n)) :
    ∀ (n a : Nat), a + n = cfg.maxRetries → ∀ lastE : Option ε,
      retryGo cfg jd op (List.range' a n) lastE =
        { outcome := .maxRetriesExceeded
            (if n = 0 then lastE else some (errs (cfg.maxRetries - 1))),
          attemptsMade := n,
          sleeps := (List.range' a (n - 1)).map
            (fun i => calculateBackoff cfg (jd i) i) } := by
  intro n
  induction n with
  | zero =>
    intro a ha lastE
    simp [retryGo]
  | succ m ih =>
    intro a ha lastE
    rw [List.range'_succ]
    simp only [retryGo, hfail a]
    rw [ih (a + 1) (by omega) (some (errs a))]
    by_cases hm : m = 0
    · subst hm
      rw [if_neg (show ¬ a < cfg.maxRetries - 1 by omega)]
      have ha' : a = cfg.maxRetries - 1 := by omega
      simp [ha']
    · rw [if_pos (show a < cfg.maxRetries - 1 by omega)]
      rw [if_neg hm, if_neg (Nat.succ_ne_zero m)]
      refine congrArg (fun s => RetryTrace.mk _ _ s) ?_
      rw [show m + 1 - 1 = (m - 1) + 1 by omega, List.range'_succ, List.map_cons]

/-- C3: for an operation that always fails with a retryable error,
`execute_with_retry` makes exactly max_retries attempts, then fails with
MaxRetriesExceeded wrapping the error of the last attempt; between consecutive
attempts it sleeps `min(base_delay * 2 ^ attempt, max_delay)` plus — when
jitter is enabled — a random draw of at most 10% of that delay (hypothesis
`hjit`), and every performed sleep lies between the exponential delay and the
delay plus 10%. -/
theorem retry_exhaustion (cfg : RateLimitConfig) (jd : Nat → ℚ) (op : Nat → Except ε α)
    (errs : Nat → ε)
    (hfail : ∀ n, op n = .error (errs n))
    (hpos : 0 < cfg.maxRetries)
    (hbase : 0 ≤ cfg.baseDelay) (hmaxd : 0 ≤ cfg.maxDelay)
    (hjit : ∀ n, 0 ≤ jd n ∧ jd n ≤ min (cfg.baseDelay * 2 ^ n) cfg.maxDelay / 10) :
    (executeWithRetry cfg jd op).attemptsMade = cfg.maxRetries ∧
    (executeWithRetry cfg jd op).outcome =
      .maxRetriesExceeded (some (errs (cfg.maxRetries - 1))) ∧
    (executeWithRetry cfg jd op).sleeps = (List.range (cfg.maxRetries - 1)).map
      (fun a => min (cfg.baseDelay * 2 ^ a) cfg.maxDelay +
        (if cfg.jitter then jd a else 0)) ∧
    ∀ d ∈ (executeWithRetry cfg jd op).sleeps, ∃ a, a < cfg.maxRetries - 1 ∧
      min (cfg.baseDelay * 2 ^ a) cfg.maxDelay ≤ d ∧
      d ≤ min (cfg.baseDelay * 2 ^ a) cfg.maxDelay +
        min (cfg.baseDelay * 2 ^ a) cfg.maxDelay / 10 := by
  have hgo := retryGo_allFail cfg jd op errs hfail cfg.maxRetries 0 (by omega) none
  have hmin : ∀ a : Nat, (0 : ℚ) ≤ min (cfg.baseDelay * 2 ^ a) cfg.maxDelay := by
    intro a
    exact le_min (mul_nonneg hbase (by positivity)) hmaxd
  have hsleeps : (executeWithRetry cfg jd op).sleeps =
      (List.range (cfg.maxRetries - 1)).map
        (fun a => min (cfg.baseDelay * 2 ^ a) cfg.maxDelay +
          (if cfg.jitter then jd a else 0)) := by
    unfold executeWithRetry
    rw [List.range_eq_range', hgo]
    show (List.range' 0 (cfg.maxRetries - 1)).map _ = _
    rw [← List.range_eq_range']
    refine List.map_congr_left ?_
    intro a _
    unfold calculateBackoff
    cases hj : cfg.jitter with
    | true => rw [if_pos rfl, if_pos rfl]
    | false => rw [if_neg (by simp), if_neg (by simp), add_zero]
  refine ⟨?_, ?_, hsleeps, ?_⟩
  · unfold executeWithRetry
    rw [List.range_eq_range', hgo]
  · unfold executeWithRetry
    rw [List.range_eq_range', hgo]
    show RetryOutcome.maxRetriesExceeded (if cfg.maxRetries = 0 then none else _) = _
    rw [if_neg (by omega)]
  · intro d hd
    rw [hsleeps] at hd
    rcases List.mem_map.mp hd with ⟨a, hmem, hda⟩
    have hnn : (0 : ℚ) ≤ (if cfg.jitter = true then jd a else 0) := by
      by_cases hj : cfg.jitter = true
      · rw [if_pos hj]
        exact (hjit a).1
      · rw [if_neg hj]
    have hub : (if cfg.jitter = true then jd a else 0) ≤
        min (cfg.baseDelay * 2 ^ a) cfg.maxDelay / 10 := by
      by_cases hj : cfg.jitter = true
      · rw [if_pos hj]
        exact (hjit a).2
      · rw [if_neg hj]
        exact div_nonneg (hmin a) (by norm_num)
    refine ⟨a, List.mem_range.mp hmem, ?_, ?_⟩
    · rw [← hda]
      exact le_add_of_nonneg_right hnn
    · rw [← hda]
      exact add_le_add_left hub _

/-- Witness for C3: the default configuration (3 retries), a zero jitter
oracle and an operation failing with the same retryable error on every
attempt: all three attempts are made. -/
theorem retry_exhaustion_witness :
    (∀ n : Nat, (fun _ : Nat => (Except.error "boom" : Except String Unit)) n =
        .error ((fun _ : Nat => "boom") n)) ∧
    0 < defaultRateLimitConfig.maxRetries ∧
    (0 : ℚ) ≤ defaultRateLimitConfig.baseDelay ∧
    (0 : ℚ) ≤ defaultRateLimitConfig.maxDelay ∧
    (∀ n : Nat, (0 : ℚ) ≤ (fun _ : Nat => (0 : ℚ)) n ∧
      (fun _ : Nat => (0 : ℚ)) n ≤
        min (defaultRateLimitConfig.baseDelay * 2 ^ n)
          defaultRateLimitConfig.maxDelay / 10) ∧
    (executeWithRetry defaultRateLimitConfig (fun _ => 0)
        (fun _ : Nat => (Except.error "boom" : Except String Unit))).attemptsMade =
      defaultRateLimitConfig.maxRetries := by
  have hjit : ∀ n : Nat, (0 : ℚ) ≤ (fun _ : Nat => (0 : ℚ)) n ∧
      (fun _ : Nat => (0 : ℚ)) n ≤
        min (defaultRateLimitConfig.baseDelay * 2 ^ n)
          defaultRateLimitConfig.maxDelay / 10 := by
    intro n
    refine ⟨le_refl 0, div_nonneg (le_min ?_ ?_) (by norm_num)⟩
    · show (0 : ℚ) ≤ 1 * 2 ^ n
      positivity
    · show (0 : ℚ) ≤ 60
      norm_num
  exact ⟨fun _ => rfl, by decide, by norm_num [defaultRateLimitConfig],
    by norm_num [defaultRateLimitConfig], hjit,
    (retry_exhaustion defaultRateLimitConfig (fun _ => 0) _ (fun _ => "boom")
        (fun _ => rfl) (by decide) (by norm_num [defaultRateLimitConfig])
        (by norm_num [defaultRateLimitConfig]) hjit).1⟩

/-- The result of validating one finding is independent of the running call
counter, which increases by exactly one — the chain is invoked once per
finding. -/
theorem validateSingleFinding_eq (classify : Finding → Except String AIValidation)
    (f : Finding) (c : Nat) :
    validateSingleFinding classify f c = ((validateSingleFinding classify f 0).1, c + 1) := by
  unfold validateSingleFinding
  cases classify f <;> rfl

/-- A processed batch is the per-finding validation mapped over the batch, and
its classifier invocation count grows by the batch length. -/
theorem processBatch_eq (classify : Finding → Except String AIValidation) :
    ∀ (b : List Finding) (c : Nat),
      processBatch classify b c =
        (b.map (fun f => (validateSingleFinding classify f 0).1), c + b.length) := by
  intro b
  induction b with
  | nil => intro c; simp [processBatch]
  | cons f rest ih =>
    intro c
    simp only [processBatch, validateSingleFinding_eq classify f c]
    rw [ih (c + 1), Prod.mk.injEq]
    exact ⟨rfl, by simp only [List.length_cons]; omega⟩

/-- Folding the batch-collection step over any completion order concatenates
the mapped batches in that order and sums their lengths into the invocation
count. -/
theorem batchStep_foldl (classify : Finding → Except String AIValidation)
    (batches : List (List Finding)) :
    ∀ (order : List Nat) (acc : List Finding × Nat),
      order.foldl (batchStep classify batches) acc =
        (acc.1 ++ (order.map (fun i => (batches.getD i []).map
            (fun f => (validateSingleFinding classify f 0).1))).flatten,
         acc.2 + (order.map (fun i => (batches.getD i []).length)).sum) := by
  intro order
  induction order with
  | nil => intro acc; simp
  | cons i rest ih =>
    intro acc
    simp only [List.foldl_cons, List.map_cons, List.flatten_cons, List.sum_cons]
    rw [show batchStep classify batches acc i =
        (acc.1 ++ (batches.getD i []).map (fun f => (validateSingleFinding classify f 0).1),
         acc.2 + (batches.getD i []).length) by
      simp [batchStep, processBatch_eq]]
    rw [ih]
    rw [Prod.mk.injEq]
    exact ⟨by rw [List.append_assoc], by omega⟩

/-- Reading a list back off by indexed lookup over its index range. -/
theorem range_map_getD {α : Type} (l : List α) (d : α) :
    (List.range l.length).map (fun i => l.getD i d) = l := by
  apply List.ext_getElem
  · simp
  · intro i h1 h2
    simp [List.getD_eq_getElem?_getD, List.getElem?_eq_getElem, h2]

/-- Fuel-indexed slicing covers the whole list when the fuel bounds its
length and the slice width is positive. -/
theorem chunksOfFuel_flatten {α : Type} (n : Nat) (hn : 0 < n) :
    ∀ (fuel : Nat) (l : List α), l.length ≤ fuel →
      (chunksOfFuel fuel n l).flatten = l := by
  intro fuel
  induction fuel with
  | zero =>
    intro l hl
    cases l with
    | nil => simp [chunksOfFuel]
    | cons x xs => simp at hl
  | succ f ih =>
    intro l hl
    cases l with
    | nil => simp [chunksOfFuel]
    | cons x xs =>
      simp only [chunksOfFuel, if_neg (by omega : ¬ n = 0), List.flatten_cons]
      rw [ih (List.drop n (x :: xs)) (by simp only [List.length_drop]; simp at hl ⊢; omega)]
      exact List.take_append_drop n (x :: xs)

/-- The batches of a positive batch size concatenate back to the findings
list. -/
theorem chunksOf_flatten {α : Type} (n : Nat) (hn : 0 < n) (l : List α) :
    (chunksOf n l).flatten = l :=
  chunksOfFuel_flatten n hn l.length l (le_refl _)

/-- C2 counterexample: validating an empty findings list does not return an
empty (length-0) list of validated findings — the unconditional statistics
display divides the processing time by the zero finding count, so the call
raises ZeroDivisionError instead of returning; the claim's universal
quantification over every input list of N findings fails at N = 0. -/
theorem empty_batch_raises_zero_division :
    validateFindings (fun _ => .ok sampleValidation) 10 [] [] (mkCache 10000 100) =
      .error "ZeroDivisionError: float division by zero" := by
  rfl

/-- C2 amended: for every non-empty input list of N findings and every
batch-future completion order, `validate_findings` returns exactly N validated
findings — a permutation of the per-finding validation of the inputs, hence in
1:1 correspondence with them — regardless of how many classifier calls fail; a
finding whose classifier call fails is returned carrying an error-verdict
validation embedding the error message, and every returned finding carries a
validation, none is dropped.  (On the empty list the function raises
ZeroDivisionError from the statistics display instead of returning.) -/
theorem batch_completeness (classify : Finding → Except String AIValidation)
    (batchSize : Nat) (findings : List Finding) (order : List Nat)
    (cache : ValidationCache)
    (hbs : 0 < batchSize)
    (hne : findings ≠ [])
    (hord : order.Perm (List.range (chunksOf batchSize findings).length)) :
    ∃ run : ValidationRun,
      validateFindings classify batchSize order findings cache = .ok run ∧
      run.results.length = findings.length ∧
      run.results.Perm (findings.map (fun f => (validateSingleFinding classify f 0).1)) ∧
      (∀ f ∈ findings, ∀ e, classify f = .error e →
        ∃ v, (validateSingleFinding classify f 0).1.aiValidation = some v ∧
          v.verdict = "Error" ∧
          v.justification = "Error during validation: " ++ e) ∧
      (∀ f ∈ findings, ∃ v, (validateSingleFinding classify f 0).1.aiValidation = some v) := by
  have hlen0 : findings.length ≠ 0 := by
    cases findings with
    | nil => exact absurd rfl hne
    | cons a l => simp
  have hres : (order.foldl (batchStep classify (chunksOf batchSize findings)) ([], 0)).1 =
      (order.map (fun i => ((chunksOf batchSize findings).getD i []).map
        (fun f => (validateSingleFinding classify f 0).1))).flatten := by
    rw [batchStep_foldl]
    simp
  have hkey : (List.range (chunksOf batchSize findings).length).map
      (fun i => ((chunksOf batchSize findings).getD i []).map
        (fun f => (validateSingleFinding classify f 0).1)) =
      (chunksOf batchSize findings).map
        (List.map (fun f => (validateSingleFinding classify f 0).1)) := by
    apply List.ext_getElem
    · simp
    · intro i h1 h2
      simp only [List.getElem_map, List.getElem_range]
      rw [List.getD_eq_getElem _ _ (by simpa using h2)]
  have hperm : (order.foldl (batchStep classify (chunksOf batchSize findings)) ([], 0)).1.Perm
      (findings.map (fun f => (validateSingleFinding classify f 0).1)) := by
    rw [hres]
    refine ((hord.map _).flatten).trans ?_
    rw [hkey, ← List.map_flatten, chunksOf_flatten batchSize hbs]
  refine ⟨{ results := (order.foldl (batchStep classify (chunksOf batchSize findings)) ([], 0)).1,
            cache := { cache with hits := 0, misses := 0 },
            classifierCalls :=
              (order.foldl (batchStep classify (chunksOf batchSize findings)) ([], 0)).2 },
    ?_, ?_, hperm, ?_, ?_⟩
  · simp only [validateFindings, displayValidationStatistics]
    rw [if_neg hlen0]
  · rw [hperm.length_eq, List.length_map]
  · intro f _ e he
    exact ⟨errorValidation e, by simp [validateSingleFinding, he], rfl, rfl⟩
  · intro f _
    cases hc : classify f with
    | ok v => exact ⟨v, by simp [validateSingleFinding, hc]⟩
    | error e => exact ⟨errorValidation e, by simp [validateSingleFinding, hc]⟩

/-- Witness for C2 (amended): three findings — the middle one failing its
classifier call — validated in batches of two collected in reversed completion
order still yield exactly three outputs under a successful return. -/
theorem batch_completeness_witness :
    0 < 2 ∧
    ([sampleFinding, badFinding, sampleFinding] : List Finding) ≠ [] ∧
    ([1, 0] : List Nat).Perm
      (List.range (chunksOf 2 [sampleFinding, badFinding, sampleFinding]).length) ∧
    ∃ run : ValidationRun,
      validateFindings
          (fun g => if g.ruleId = "bad" then .error "boom" else .ok sampleValidation)
          2 [1, 0] [sampleFinding, badFinding, sampleFinding]
          (mkCache 10000 100) = .ok run ∧
      run.results.length = 3 := by
  refine ⟨by decide, by decide, by decide, ?_⟩
  obtain ⟨run, hok, hlen, -, -, -⟩ := batch_completeness
    (fun g => if g.ruleId = "bad" then .error "boom" else .ok sampleValidation)
    2 [sampleFinding, badFinding, sampleFinding] [1, 0]
    (mkCache 10000 100) (by decide) (by decide) (by decide)
  exact ⟨run, hok, hlen⟩

/-- The LRU ordering is transitive. -/
theorem lruLe_trans (a b c : CacheEntry) :
    lruLe a b = true → lruLe b c = true → lruLe a c = true := by
  simp only [lruLe, decide_eq_true_eq]
  omega

/-- The LRU ordering is total. -/
theorem lruLe_total (a b : CacheEntry) : (lruLe a b || lruLe b a) = true := by
  simp only [lruLe, Bool.or_eq_true, decide_eq_true_eq]
  omega

/-- INSERT OR REPLACE preserves uniqueness of the hash PRIMARY KEY. -/
theorem insertOrReplace_hash_nodup (entries : List CacheEntry) (e : CacheEntry)
    (h : (entries.map CacheEntry.hash).Nodup) :
    ((insertOrReplace entries e).map CacheEntry.hash).Nodup := by
  unfold insertOrReplace
  rw [List.map_append, List.nodup_append]
  refine ⟨?_, by simp, ?_⟩
  · exact List.Nodup.sublist
      ((List.filter_sublist entries).map CacheEntry.hash) h
  · intro a ha hb
    have hb' : a = e.hash := by simpa using hb
    rcases List.mem_map.mp ha with ⟨x, hx, hxa⟩
    have hne := (List.mem_filter.mp hx).2
    simp only [decide_eq_true_eq] at hne
    exact hne (hxa.trans hb')

/-- Specification of `_auto_cleanup` on an over-full table with unique hashes:
it removes exactly `length / 5` rows — those least in the (last-accessed,
access-count) lexicographic order — so every removed row is dominated by every
surviving row in that order. -/
theorem autoCleanup_spec (maxE : Nat) (entries : List CacheEntry)
    (hnodup : (entries.map CacheEntry.hash).Nodup)
    (hover : entries.length > maxE) :
    (ValidationCache.autoCleanup maxE entries).length
        = entries.length - entries.length / 5 ∧
    ∀ r ∈ entries, r ∉ ValidationCache.autoCleanup maxE entries →
      ∀ k ∈ ValidationCache.autoCleanup maxE entries, lruLe r k = true := by
  have hnodupE : entries.Nodup := List.Nodup.of_map _ hnodup
  set m := entries.length / 5 with hm
  set sorted := entries.mergeSort lruLe with hsortdef
  have hperm : sorted.Perm entries := List.mergeSort_perm entries lruLe
  have hpair : sorted.Pairwise (fun a b => lruLe a b = true) :=
    List.sorted_mergeSort lruLe_trans lruLe_total entries
  have hnodupS : sorted.Nodup := (hperm.nodup_iff).mpr hnodupE
  have hcontains : ∀ e ∈ entries,
      (decide (e.hash ∈ (sorted.take m).map CacheEntry.hash) : Bool)
        = decide (e ∈ sorted.take m) := by
    intro e he
    rw [Bool.eq_iff_iff]
    simp only [decide_eq_true_eq]
    constructor
    · intro hmem
      rcases List.mem_map.mp hmem with ⟨v, hv, hvh⟩
      have hvE : v ∈ entries := hperm.mem_iff.mp ((List.take_sublist m sorted).subset hv)
      have hve : v = e := List.inj_on_of_nodup_map hnodup hvE he hvh
      rwa [hve] at hv
    · intro hmem
      exact List.mem_map_of_mem _ hmem
  have hres : ValidationCache.autoCleanup maxE entries =
      entries.filter (fun e => !(decide (e ∈ sorted.take m))) := by
    unfold ValidationCache.autoCleanup
    rw [if_pos hover]
    exact List.filter_congr (fun e he => by rw [hcontains e he])
  have hfiltperm : (entries.filter (fun e => !(decide (e ∈ sorted.take m)))).Perm
      (sorted.drop m) := by
    have h1 : (sorted.take m ++ sorted.drop m).filter
        (fun e => !(decide (e ∈ sorted.take m))) = sorted.drop m := by
      rw [List.filter_append]
      have h2 : (sorted.take m).filter (fun e => !(decide (e ∈ sorted.take m))) = [] := by
        rw [List.filter_eq_nil_iff]
        intro a ha
        simp [ha]
      have h3 : (sorted.drop m).filter (fun e => !(decide (e ∈ sorted.take m)))
          = sorted.drop m := by
        rw [List.filter_eq_self]
        intro a ha
        have hnt : a ∉ sorted.take m :=
          fun hmem => List.disjoint_take_drop hnodupS (le_refl m) hmem ha
        simp [hnt]
      rw [h2, h3, List.nil_append]
    have h1' : sorted.filter (fun e => !(decide (e ∈ sorted.take m)))
        = sorted.drop m := by
      rwa [List.take_append_drop] at h1
    have hp2 := (hperm.filter (fun e => !(decide (e ∈ sorted.take m)))).symm
    rwa [h1'] at hp2
  constructor
  · rw [hres, hfiltperm.length_eq, List.length_drop, hperm.length_eq]
  · intro r hr hrnot k hk
    rw [hres] at hrnot hk
    have hkdrop : k ∈ sorted.drop m := (hfiltperm.mem_iff).mp hk
    have hrtake : r ∈ sorted.take m := by
      have hrs : r ∈ sorted.take m ++ sorted.drop m := by
        rw [List.take_append_drop]
        exact hperm.mem_iff.mpr hr
      rcases List.mem_append.mp hrs with hcase | hcase
      · exact hcase
      · exact absurd ((hfiltperm.mem_iff).mpr hcase) hrnot
    have hpair' : (sorted.take m ++ sorted.drop m).Pairwise
        (fun a b => lruLe a b = true) := by
      rw [List.take_append_drop]
      exact hpair
    exact (List.pairwise_append.mp hpair').2.2 r hrtake k hkdrop

/-- C5: on a put that reaches the auto-cleanup interval, if the table
(including the just-written row) holds more than max-entries rows, the cache
removes the least-recently-accessed fifth of the rows — `int(size * 0.2)` —
in one pass, ordered by last-accessed ascending with ties broken by
access-count ascending, so every evicted row is dominated by every survivor in
that order and the put counter resets; in particular a table of 12,000 rows
(against max-entries 10,000) drops to 9,600. -/
theorem batched_eviction (st : ValidationCache) (h d r : String) (now : Int)
    (hnodup : (st.entries.map CacheEntry.hash).Nodup)
    (htrig : st.putCount + 1 ≥ st.autoCleanupInterval)
    (hover : (insertOrReplace st.entries (freshEntry h d r now)).length > st.maxEntries) :
    (st.put h d r now).entries.length =
      (insertOrReplace st.entries (freshEntry h d r now)).length -
        (insertOrReplace st.entries (freshEntry h d r now)).length / 5 ∧
    (st.put h d r now).putCount = 0 ∧
    (∀ rem ∈ insertOrReplace st.entries (freshEntry h d r now),
        rem ∉ (st.put h d r now).entries →
        ∀ k ∈ (st.put h d r now).entries, lruLe rem k = true) ∧
    ((insertOrReplace st.entries (freshEntry h d r now)).length = 12000 ∧
        st.maxEntries = 10000 →
      (st.put h d r now).entries.length = 9600) := by
  have hnodup1 := insertOrReplace_hash_nodup st.entries (freshEntry h d r now) hnodup
  have hput : st.put h d r now =
      { st with
          entries := ValidationCache.autoCleanup st.maxEntries
            (insertOrReplace st.entries (freshEntry h d r now)),
          putCount := 0 } := by
    unfold ValidationCache.put
    rw [if_pos htrig]
  have hspec := autoCleanup_spec st.maxEntries _ hnodup1 hover
  refine ⟨?_, ?_, ?_, ?_⟩
  · rw [hput]
    exact hspec.1
  · rw [hput]
  · intro rem hrem hnot k hk
    rw [hput] at hnot hk
    exact hspec.2 rem hrem hnot k hk
  · rintro ⟨h12, _⟩
    rw [hput]
    show (ValidationCache.autoCleanup st.maxEntries
        (insertOrReplace st.entries (freshEntry h d r now))).length = 9600
    rw [hspec.1, h12]

/-- Witness for C5: a concrete cache of six uniquely-hashed entries with
max-entries 4, one put short of its cleanup interval of 2: the triggering put
resets the put counter (and evicts a fifth of the seven rows). -/
theorem batched_eviction_witness :
    ((evictionSampleCache.entries.map CacheEntry.hash).Nodup) ∧
    evictionSampleCache.putCount + 1 ≥ evictionSampleCache.autoCleanupInterval ∧
    (insertOrReplace evictionSampleCache.entries (freshEntry "six" "f" "v" 9)).length >
      evictionSampleCache.maxEntries ∧
    (evictionSampleCache.put "six" "f" "v" 9).putCount = 0 :=
  ⟨by decide, by decide, by decide,
    (batched_eviction evictionSampleCache "six" "f" "v" 9
      (by decide) (by decide) (by decide)).2.1⟩

end SemgrepAI
